import Mathlib

/-!
Verification development for the MagicalStory photo-analyzer pipeline
(`photo_analyzer.py`): a shallow embedding of its data model and of the
pure logic of the face/body isolation pipeline, together with proofs of
the documented behavioural properties.

Conventions of the embedding:
* Percentages and model confidences are rationals (`ℚ`).  Where the
  program only compares or carries such values, `ℚ` is a faithful
  carrier; where a computed float value is truncated to an integer and
  rounding can change the result (the body-resize scale factor), IEEE-754
  binary64 rounding is modelled explicitly through `fl64`.
* Python `int(x)` truncates toward zero; it is embedded as `int_trunc`.
  Python `//` on integers is floor division, embedded as `Int.fdiv`.
* Images are rectangular BGRA pixel buffers, embedded as a dimension pair
  plus a total pixel function.  NumPy slice bounds produced by the
  pipeline are non-negative (the code clamps with `max(0, ...)` before
  slicing), so slices are embedded with plain interval conditions.
* External models (face detectors, segmentation, embedding extraction)
  and the OpenCV resampling kernel are collaborators outside the
  repository; their outputs appear as parameters, while every decision
  the repository's own code takes on those outputs is embedded exactly.
-/

/-- Truncation toward zero, the semantics of Python `int()` applied to a
numeric value: floor for non-negative arguments, ceiling for negative
ones. -/
def int_trunc (q : ℚ) : ℤ :=
  if 0 ≤ q then ⌊q⌋ else ⌈q⌉

/-- Truncation toward zero followed by clamping negatives to `0`, the
composite used where the program stores a Python `int()` result into a
size that is necessarily non-negative. -/
def natTrunc (q : ℚ) : ℕ :=
  (int_trunc q).toNat

/-- One BGRA pixel (blue, green, red, alpha), each channel a `uint8`
value `0..255`. -/
structure Pix where
  b : ℕ
  g : ℕ
  r : ℕ
  a : ℕ
deriving DecidableEq

/-- A rectangular pixel buffer: `h` rows by `w` columns with a total
pixel function `px row col`.  All images of the embedding carry an alpha
channel; three-channel OpenCV images are represented with alpha `255`. -/
structure Img where
  h : ℕ
  w : ℕ
  px : ℕ → ℕ → Pix

/-- A single-channel mask: `h` rows by `w` columns of `uint8` values. -/
structure Mask where
  h : ℕ
  w : ℕ
  px : ℕ → ℕ → ℕ

/-- A bounding box in percentage coordinates (0-100 of image width and
height), origin top-left: the `{x, y, width, height}` dictionaries of
`photo_analyzer.py`. -/
structure Box where
  x : ℚ
  y : ℚ
  width : ℚ
  height : ℚ
deriving DecidableEq

/-- One detected face candidate: the `{id, x, y, width, height,
confidence}` dictionaries produced by the detectors. -/
structure Face where
  id : ℕ
  x : ℚ
  y : ℚ
  width : ℚ
  height : ℚ
  confidence : ℚ
deriving DecidableEq

/-- The box part of a face candidate. -/
def Face.box (f : Face) : Box :=
  ⟨f.x, f.y, f.width, f.height⟩

/-- `add_padding_to_box` (photo_analyzer.py:628): expand a percentage box
by `padding_percent` of its own width/height on each side, clamping the
origin at `0` and the extent so the box stays inside `[0,100]`. -/
def add_padding_to_box (box : Box) (padding_percent : ℚ) : Box :=
  let pad_x := box.width * padding_percent
  let pad_y := box.height * padding_percent
  { x := max 0 (box.x - pad_x)
    y := max 0 (box.y - pad_y)
    width := min (100 - max 0 (box.x - pad_x)) (box.width + 2 * pad_x)
    height := min (100 - max 0 (box.y - pad_y)) (box.height + 2 * pad_y) }

/-- NumPy basic slicing `image[y1:y2, x1:x2]` for the non-negative
bounds the pipeline produces: an empty or inverted range yields an empty
image. -/
def sub_image (image : Img) (y1 y2 x1 x2 : ℤ) : Img :=
  { h := (y2 - y1).toNat
    w := (x2 - x1).toNat
    px := fun y x => image.px (y + y1.toNat) (x + x1.toNat) }

/-- `crop_to_box` (photo_analyzer.py:645): convert a percentage box to an
integer pixel rectangle with Python `int()` truncation, clamp the origin
to `≥ 0` and the far corner to the image dimensions, and return the
pixel sub-image.  (The optional `output_size` resize of the Python
function is unused by its pipeline callers and not embedded.) -/
def crop_to_box (image : Img) (box : Box) : Img :=
  let h := image.h
  let w := image.w
  let x := int_trunc (box.x / 100 * w)
  let y := int_trunc (box.y / 100 * h)
  let width := int_trunc (box.width / 100 * w)
  let height := int_trunc (box.height / 100 * h)
  let x' := max 0 x
  let y' := max 0 y
  let x2 := min (w : ℤ) (x' + width)
  let y2 := min (h : ℤ) (y' + height)
  sub_image image y' y2 x' x2

/-- Modelled from the spec sentence of claim C7 only, for comparison with
`crop_to_box`: the conversion done with rounding (`pixel =
round(pct/100 * dimension)`) instead of the program's truncation. -/
def crop_to_box_round (image : Img) (box : Box) : Img :=
  let h := image.h
  let w := image.w
  let x := round (box.x / 100 * w)
  let y := round (box.y / 100 * h)
  let width := round (box.width / 100 * w)
  let height := round (box.height / 100 * h)
  let x' := max 0 x
  let y' := max 0 y
  let x2 := min (w : ℤ) (x' + width)
  let y2 := min (h : ℤ) (y' + height)
  sub_image image y' y2 x' x2

/-- Spec-language restatement of the amended claim C7, written over
natural-number pixel coordinates: each coordinate is converted by
truncation (floor, as the pipeline's boxes are non-negative), the origin
is clamped to `≥ 0`, the far corner to the image dimension, and the
resulting (possibly empty) sub-image is returned. -/
def crop_to_box_trunc_spec (image : Img) (box : Box) : Img :=
  let x1 := (⌊box.x / 100 * image.w⌋).toNat
  let y1 := (⌊box.y / 100 * image.h⌋).toNat
  let x2 := min image.w (x1 + (⌊box.width / 100 * image.w⌋).toNat)
  let y2 := min image.h (y1 + (⌊box.height / 100 * image.h⌋).toNat)
  { h := y2 - y1
    w := x2 - x1
    px := fun y x => image.px (y1 + y) (x1 + x) }

/-- Row-major list of the coordinates (row, col) of all nonzero mask
pixels, the embedding of `cv2.findNonZero(mask)`. -/
def nonzeroCoords (m : Mask) : List (ℕ × ℕ) :=
  ((List.range m.h).product (List.range m.w)).filter
    (fun c => decide (m.px c.1 c.2 ≠ 0))

/-- Axis-aligned bounding rectangle `(x, y, width, height)` of the
nonzero mask pixels, the embedding of `cv2.boundingRect` applied to the
`cv2.findNonZero` result; `none` when the mask is entirely zero. -/
def boundingRect (m : Mask) : Option (ℕ × ℕ × ℕ × ℕ) :=
  match nonzeroCoords m with
  | [] => none
  | c :: cs =>
    let ys := (c :: cs).map Prod.fst
    let xs := (c :: cs).map Prod.snd
    let y0 := ys.foldl min c.1
    let y1 := ys.foldl max c.1
    let x0 := xs.foldl min c.2
    let x1 := xs.foldl max c.2
    some (x0, y0, x1 - x0 + 1, y1 - y0 + 1)

/-- `get_body_bounds_from_mask` (photo_analyzer.py:594): bounding
rectangle of the nonzero mask pixels, padded by `padding_percent` of its
own extents, clamped to the image, and converted to percentage space;
`none` for an all-zero mask. -/
def get_body_bounds_from_mask (m : Mask) (padding_percent : ℚ) : Option Box :=
  match boundingRect m with
  | none => none
  | some (x, y, bw, bh) =>
    let pad_x := int_trunc ((bw : ℚ) * padding_percent)
    let pad_y := int_trunc ((bh : ℚ) * padding_percent)
    let x' := max 0 ((x : ℤ) - pad_x)
    let y' := max 0 ((y : ℤ) - pad_y)
    let bw' := min ((m.w : ℤ) - x') ((bw : ℤ) + 2 * pad_x)
    let bh' := min ((m.h : ℤ) - y') ((bh : ℤ) + 2 * pad_y)
    some { x := (x' : ℚ) / m.w * 100
           y := (y' : ℚ) / m.h * 100
           width := (bw' : ℚ) / m.w * 100
           height := (bh' : ℚ) / m.h * 100 }

/-- Descending-confidence comparison used by every
`faces.sort(key=lambda f: f["confidence"], reverse=True)` call; Python's
sort is a stable merge sort, matching `List.mergeSort`. -/
def leConf (a b : Face) : Bool :=
  decide (b.confidence ≤ a.confidence)

/-- Descending-area comparison used by `detect_all_faces_opencv`'s
`faces.sort(key=lambda f: f["width"] * f["height"], reverse=True)`. -/
def leArea (a b : Face) : Bool :=
  decide (b.width * b.height ≤ a.width * a.height)

/-- Reassign `id` fields as the 0-based position, the embedding of the
`for i, face in enumerate(faces): face["id"] = i` renumber passes. -/
def renumberAux : ℕ → List Face → List Face
  | _, [] => []
  | i, f :: fs => { f with id := i } :: renumberAux (i + 1) fs

/-- Renumbering starting at rank 0. -/
def renumber (l : List Face) : List Face :=
  renumberAux 0 l

/-- Two detections count as duplicates of the same physical face when
their box centers are within 10 percentage points on both axes
(photo_analyzer.py:394-398). -/
def isDup (f e : Face) : Prop :=
  |f.x + f.width / 2 - (e.x + e.width / 2)| < 10 ∧
  |f.y + f.height / 2 - (e.y + e.height / 2)| < 10

instance (f e : Face) : Decidable (isDup f e) :=
  decidable_of_iff
    ((-(10 : ℚ) < f.x + f.width / 2 - (e.x + e.width / 2) ∧
        f.x + f.width / 2 - (e.x + e.width / 2) < 10) ∧
     (-(10 : ℚ) < f.y + f.height / 2 - (e.y + e.height / 2) ∧
        f.y + f.height / 2 - (e.y + e.height / 2) < 10))
    (by rw [isDup, abs_lt, abs_lt])

/-- The duplicate-merge step of the legacy detection loop
(photo_analyzer.py:390-406): scan the accepted faces for the first one
whose center is within 10 percentage points of the incoming face on both
axes; on a hit, replace it when the incoming confidence is strictly
higher (`existing.update(face)`) and stop, otherwise drop the incoming
face; with no hit, append the incoming face. -/
def dedup_insert : List Face → Face → List Face
  | [], f => [f]
  | e :: es, f =>
    if isDup f e then
      if e.confidence < f.confidence then f :: es else e :: es
    else e :: dedup_insert es f

/-- Fold a whole candidate list through the duplicate-merge step. -/
def merge_faces (l : List Face) : List Face :=
  l.foldl dedup_insert []

/-- A raw detection of the legacy MediaPipe face detector: relative
bounding box in `[0,1]` coordinates plus a confidence score. -/
structure MpDet where
  xmin : ℚ
  ymin : ℚ
  width : ℚ
  height : ℚ
  score : ℚ
deriving DecidableEq

/-- A raw detection of the OpenCV Haar cascade: pixel rectangle. -/
structure CvDet where
  x : ℕ
  y : ℕ
  w : ℕ
  h : ℕ
deriving DecidableEq

/-- A raw detection of the MediaPipe Tasks face detector: pixel origin
and extent plus a confidence score. -/
structure TaskDet where
  origin_x : ℕ
  origin_y : ℕ
  width : ℕ
  height : ℕ
  score : ℚ
deriving DecidableEq

/-- `detect_all_faces_opencv` (photo_analyzer.py:217): wrap the cascade
detections (an external model output, here a parameter), dropping those
whose aspect `w/h` lies outside `[0.5, 2.0]`; ids are first the raw
enumeration index, all confidences the fixed `0.5`; then sort by area
descending and renumber.  The cascade's own `minSize`/`minNeighbors`
settings act inside the external detector call. -/
def detect_all_faces_opencv (dets : List CvDet) (imgW imgH : ℕ) : List Face :=
  let faces := dets.enum.filterMap (fun p =>
    let d := p.2
    let aspect : ℚ := if 0 < d.h then (d.w : ℚ) / d.h else 0
    if aspect < 1/2 ∨ 2 < aspect then none
    else some { id := p.1
                x := (d.x : ℚ) / imgW * 100
                y := (d.y : ℚ) / imgH * 100
                width := (d.w : ℚ) / imgW * 100
                height := (d.h : ℚ) / imgH * 100
                confidence := 1/2 })
  renumber (faces.mergeSort leArea)

/-- `detect_all_faces_mediapipe_tasks` (photo_analyzer.py:267): wrap the
Tasks-API detections into percentage-space faces (ids the enumeration
index), sort by confidence descending, renumber. -/
def detect_all_faces_mediapipe_tasks (dets : List TaskDet) (imgW imgH : ℕ) :
    List Face :=
  let faces := dets.enum.map (fun p =>
    { id := p.1
      x := (p.2.origin_x : ℚ) / imgW * 100
      y := (p.2.origin_y : ℚ) / imgH * 100
      width := (p.2.width : ℚ) / imgW * 100
      height := (p.2.height : ℚ) / imgH * 100
      confidence := p.2.score : Face })
  renumber (faces.mergeSort leConf)

/-- Conversion of one legacy MediaPipe detection into a candidate whose
`id` is the current length of the accepted list
(photo_analyzer.py:381-388). -/
def mkLegacyFace (n : ℕ) (d : MpDet) : Face :=
  { id := n
    x := d.xmin * 100
    y := d.ymin * 100
    width := d.width * 100
    height := d.height * 100
    confidence := d.score }

/-- One legacy detector pass (photo_analyzer.py:370-406): feed each raw
detection with confidence at or above the threshold through the
duplicate-merge step, accumulating onto the faces accepted so far. -/
def legacy_collect (minc : ℚ) (dets : List MpDet) (acc : List Face) :
    List Face :=
  dets.foldl
    (fun acc d =>
      if d.score < minc then acc else dedup_insert acc (mkLegacyFace acc.length d))
    acc

/-- The legacy primary result (photo_analyzer.py:360-411): both model
variants' detections merged through deduplication, sorted by confidence
descending, renumbered. -/
def legacy_primary (minc : ℚ) (dets0 dets1 : List MpDet) : List Face :=
  renumber ((legacy_collect minc dets1 (legacy_collect minc dets0 [])).mergeSort leConf)

/-- `detect_all_faces_mediapipe` (photo_analyzer.py:320): the full Face
Candidate Finder.  The availability flags and the raw outputs of the
three external detectors are parameters; every decision the repository
takes on them (threshold filtering, deduplication, sorting, renumbering,
and the low-yield escalation to the OpenCV cascade) is embedded. -/
def detect_all_faces_mediapipe (tasksAvail legacyAvail : Bool)
    (taskDets : List TaskDet) (dets0 dets1 : List MpDet)
    (cvDets : List CvDet) (imgW imgH : ℕ) (minc : ℚ) : List Face :=
  if tasksAvail then
    let faces0 := detect_all_faces_mediapipe_tasks taskDets imgW imgH
    let high := faces0.filter (fun f => decide (minc ≤ f.confidence))
    let chosen :=
      if high.length < 2 then
        let opencv := detect_all_faces_opencv cvDets imgW imgH
        if high.length < opencv.length then opencv else high
      else high
    renumber (chosen.mergeSort leConf)
  else if legacyAvail then
    let primary := legacy_primary minc dets0 dets1
    if primary.length < 2 then
      let opencv := detect_all_faces_opencv cvDets imgW imgH
      if primary.length < opencv.length then opencv else primary
    else primary
  else detect_all_faces_opencv cvDets imgW imgH

/-- The ids of a candidate list form the contiguous range `0..N-1` in
list order. -/
def idsContiguous (l : List Face) : Prop :=
  l.map Face.id = List.range l.length

instance (l : List Face) : Decidable (idsContiguous l) := by
  unfold idsContiguous; infer_instance

/-- Overwrite the rectangle `rows [y1,y2) × cols [x1,x2)` with opaque
white RGB and zero alpha, the embedding of the paired assignments
`result[y1:y2, x1:x2, 0:3] = 255; result[y1:y2, x1:x2, 3] = 0` on the
non-negative slice bounds `remove_faces_except` produces. -/
def eraseRegion (image : Img) (y1 y2 x1 x2 : ℤ) : Img :=
  { image with
    px := fun y x =>
      if y1 ≤ (y : ℤ) ∧ (y : ℤ) < y2 ∧ x1 ≤ (x : ℤ) ∧ (x : ℤ) < x2 then
        ⟨255, 255, 255, 0⟩
      else image.px y x }

/-- Horizontal pixel center of a face box,
`int((face["x"] + face["width"] / 2) / 100 * w)`. -/
def faceCenterXpx (f : Face) (w : ℕ) : ℤ :=
  int_trunc ((f.x + f.width / 2) / 100 * w)

/-- One iteration of the occlusion loop (photo_analyzer.py:513-553): for
a non-selected face, erase its padded face rectangle, then erase the
strip below the face bottom on its side of the midpoint between it and
the selected face.  Faces carrying the kept id are skipped. -/
def rfe_step (w h : ℕ) (selCx : ℤ) (keep : ℕ) (image : Img) (f : Face) : Img :=
  if f.id = keep then image
  else
    let otherCx := faceCenterXpx f w
    let midX := Int.fdiv (selCx + otherCx) 2
    let removeLeft := otherCx < midX
    let fTop := int_trunc (max 0 (f.y / 100 - f.height / 100 * (3/10)) * h)
    let fBot := int_trunc (min 1 ((f.y + f.height) / 100 + f.height / 100 * (3/10)) * h)
    let fX1 := int_trunc (max 0 (f.x / 100 - f.width / 100 * (3/10)) * w)
    let fX2 := int_trunc (min 1 ((f.x + f.width) / 100 + f.width / 100 * (3/10)) * w)
    let image1 :=
      if fX1 < fX2 ∧ fTop < fBot then eraseRegion image fTop fBot fX1 fX2
      else image
    if removeLeft then eraseRegion image1 fBot h 0 midX
    else eraseRegion image1 fBot h midX w

/-- `remove_faces_except` (photo_analyzer.py:476): with at most one
candidate the image is returned untouched; when no candidate carries the
kept id the (copied) image is returned untouched; otherwise every face
not carrying the kept id is erased together with the strip below it on
its side of the midpoint toward the selected face.  Images of the
embedding always carry alpha, so the BGR-to-BGRA conversion branch is
the identity. -/
def remove_faces_except (image : Img) (keep_face_id : ℕ) (all_faces : List Face) :
    Img :=
  if all_faces.length ≤ 1 then image
  else
    match all_faces.find? (fun f => decide (f.id = keep_face_id)) with
    | none => image
    | some sel =>
      all_faces.foldl
        (rfe_step image.w image.h (faceCenterXpx sel image.w) keep_face_id) image

/-- The classification tiers of `/compare-identity`
(photo_analyzer.py:1950-1965), applied to a cosine similarity value:
`(same_person, confidence, interpretation)`. -/
def classify_similarity (s : ℚ) : Bool × String × String :=
  if 0.60 < s then (true, "high", "very_similar")
  else if 0.45 < s then (true, "medium", "similar")
  else if 0.30 < s then (false, "low", "somewhat_similar")
  else (false, "high", "different")

/-- Round a rational to the nearest integer with ties to even, the
IEEE-754 default tie rule. -/
def roundEven (x : ℚ) : ℤ :=
  if x - ⌊x⌋ < 1/2 then ⌊x⌋
  else if 1/2 < x - ⌊x⌋ then ⌊x⌋ + 1
  else if Even ⌊x⌋ then ⌊x⌋ else ⌊x⌋ + 1

/-- IEEE-754 binary64 rounding of a rational value: the significand is
rounded to 53 bits, ties to even.  The exponent is unbounded (no
overflow or subnormal handling), which coincides with binary64 for every
magnitude the pipeline computes. -/
def fl64 (x : ℚ) : ℚ :=
  if 0 < x then
    (roundEven (x * (2:ℚ) ^ ((52 : ℤ) - Int.log 2 x)) : ℚ) *
      (2:ℚ) ^ (Int.log 2 x - 52)
  else if x < 0 then
    -((roundEven (-x * (2:ℚ) ^ ((52 : ℤ) - Int.log 2 (-x))) : ℚ) *
      (2:ℚ) ^ (Int.log 2 (-x) - 52))
  else 0

/-- Output dimensions of the body-image size cap
(photo_analyzer.py:906-910): when width exceeds 512 or height exceeds
768, both dimensions are scaled by `scale = min(max_w/bw, max_h/bh)` and
truncated with Python `int()`.  Each CPython float operation is modelled
with binary64 rounding: `int/int` true division is the correctly rounded
quotient of the exact integers, `int * float` first converts the integer
to binary64 and then multiplies with one more rounding. -/
def resize_body_dims (bw bh : ℕ) : ℕ × ℕ :=
  if 512 < bw ∨ 768 < bh then
    let scale := min (fl64 ((512 : ℚ) / bw)) (fl64 ((768 : ℚ) / bh))
    (natTrunc (fl64 (fl64 bw * scale)), natTrunc (fl64 (fl64 bh * scale)))
  else (bw, bh)

/-- Stand-in for the external `cv2.resize` resampling kernel: the output
buffer has exactly the requested dimensions; pixel content is modelled by
nearest-neighbour sampling (no claim depends on resampled content). -/
def cv_resize (image : Img) (nw nh : ℕ) : Img :=
  { h := nh
    w := nw
    px := fun y x => image.px (y * image.h / nh) (x * image.w / nw) }

/-- The body-image resize policy of `process_photo`
(photo_analyzer.py:905-911 and 921-925): downscale to the capped
dimensions when the 512×768 envelope is exceeded, otherwise keep the
crop untouched. -/
def resize_body (image : Img) : Img :=
  if 512 < image.w ∨ 768 < image.h then
    cv_resize image (resize_body_dims image.w image.h).1
      (resize_body_dims image.w image.h).2
  else image

/-- Alpha-blend a foreground BGRA pixel onto an opaque background pixel,
`out = fg * alpha + bg * (1 - alpha)` with the `uint8` truncation of
`.astype(np.uint8)`; the result is opaque. -/
def blendPix (fg bg : Pix) : Pix :=
  { b := natTrunc ((fg.b : ℚ) * fg.a / 255 + (bg.b : ℚ) * (255 - (fg.a : ℚ)) / 255)
    g := natTrunc ((fg.g : ℚ) * fg.a / 255 + (bg.g : ℚ) * (255 - (fg.a : ℚ)) / 255)
    r := natTrunc ((fg.r : ℚ) * fg.a / 255 + (bg.r : ℚ) * (255 - (fg.a : ℚ)) / 255)
    a := 255 }

/-- Center a crop on a square canvas of its longer side filled with the
fixed warm-peach background (BGR 230,240,255) and alpha-composite it, as
done for both face thumbnails (photo_analyzer.py:447-457 and 873-883). -/
def squareComposite (fimg : Img) : Img :=
  let m := max fimg.h fimg.w
  let y_off := (m - fimg.h) / 2
  let x_off := (m - fimg.w) / 2
  { h := m
    w := m
    px := fun y x =>
      if y_off ≤ y ∧ y < y_off + fimg.h ∧ x_off ≤ x ∧ x < x_off + fimg.w then
        blendPix (fimg.px (y - y_off) (x - x_off)) ⟨230, 240, 255, 255⟩
      else ⟨230, 240, 255, 255⟩ }

/-- `create_face_thumbnail` (photo_analyzer.py:424): pad the face box by
30 percent, crop, and (unless the crop is empty, which yields `None`)
composite onto a square peach canvas and resize to `size × size`.  The
JPEG re-encoding is external and not embedded; the thumbnail is returned
as an image. -/
def create_face_thumbnail (image : Img) (face : Face) (size : ℕ) : Option Img :=
  let face_box_padded := add_padding_to_box face.box (30/100)
  let face_img := crop_to_box image face_box_padded
  if face_img.h = 0 ∨ face_img.w = 0 then none
  else some (cv_resize (squareComposite face_img) size size)

/-- The single-channel alpha plane of a BGRA image,
`full_img_rgba[:, :, 3]`. -/
def alphaOf (image : Img) : Mask :=
  { h := image.h, w := image.w, px := fun y x => (image.px y x).a }

/-- The 3-percent minimum-size filter of `process_photo`
(photo_analyzer.py:738): drop candidates whose width or height is below
3 percent of the image.  Note it does not touch the `id` fields. -/
def sizeFilter (l : List Face) : List Face :=
  l.filter (fun f => decide (3 ≤ f.width) && decide (3 ≤ f.height))

/-- The face candidate used for the terminal artifacts
(photo_analyzer.py:820-827): the candidate at position
`selected_face_id` when that is a valid position, else the first
(highest-confidence) candidate. -/
def faceAt (l : List Face) (selected : Option ℕ) : Option Face :=
  match selected with
  | some sid => if sid < l.length then l[sid]? else l.head?
  | none => l.head?

/-- The response aggregate of `process_photo`: the subset of the JSON
reply that the pipeline computes (artifact images stand in for their
base64 encodings, which are external). -/
structure AnalyzeResult where
  success : Bool
  error : Option String
  multiple_faces_detected : Bool
  face_count : ℕ
  selected_face_id : Option ℕ
  faces : List Face
  face_box : Option Face
  body_box : Option Box
  face_thumbnail : Option Img
  body_crop : Option Img
  body_no_bg : Option Img

/-- `process_photo` (photo_analyzer.py:671): the pipeline from detection
results to the response.  Parameters stand for the collaborator outputs:
`img` is the decoded photograph, `seg` the result of
`remove_background` (`none` both when the segmentation model is
unavailable, in which case the function returns `(None, None)`, and when
it raised and was caught), and `detected` the Face Candidate Finder's
output on the detection-scaled image.  Everything after those calls is
embedded decision for decision. -/
def process_photo (img : Img) (seg : Option (Img × Mask))
    (detected : List Face) (selected_face_id : Option ℕ) : AnalyzeResult :=
  let all_faces := sizeFilter detected
  if all_faces.length = 0 then
    { success := false
      error := some "no_face_detected"
      multiple_faces_detected := false
      face_count := 0
      selected_face_id := none
      faces := []
      face_box := none
      body_box := none
      face_thumbnail := none
      body_crop := none
      body_no_bg := none }
  else if 1 < all_faces.length ∧ selected_face_id = none then
    { success := true
      error := none
      multiple_faces_detected := true
      face_count := all_faces.length
      selected_face_id := none
      faces := all_faces.filter (fun f => (create_face_thumbnail img f 200).isSome)
      face_box := none
      body_box := none
      face_thumbnail := none
      body_crop := none
      body_no_bg := none }
  else
    let face_box := faceAt all_faces selected_face_id
    let rgba0 := seg.map Prod.fst
    let body_mask := seg.map Prod.snd
    let rgba :=
      if 1 < all_faces.length ∧ selected_face_id.isSome then
        rgba0.map (fun im =>
          remove_faces_except im (selected_face_id.getD 0) all_faces)
      else rgba0
    let body_box :=
      if 1 < all_faces.length ∧ selected_face_id.isSome then
        match rgba with
        | some im => get_body_bounds_from_mask (alphaOf im) (5/100)
        | none => none
      else if all_faces.length = 1 then
        match body_mask with
        | some m => get_body_bounds_from_mask m (5/100)
        | none => none
      else none
    let face_thumbnail :=
      match rgba, face_box with
      | some im, some fb =>
        let face_img := crop_to_box im (add_padding_to_box fb.box (30/100))
        if face_img.h = 0 ∨ face_img.w = 0 then none
        else some (cv_resize (squareComposite face_img) 768 768)
      | _, _ => none
    let body_no_bg :=
      match rgba with
      | some im =>
        let body_img := match body_box with
          | some bb => crop_to_box im bb
          | none => im
        if body_img.h = 0 ∨ body_img.w = 0 then none
        else some (resize_body body_img)
      | none => none
    let body_crop :=
      match body_box with
      | some bb =>
        let body_img := crop_to_box img bb
        if body_img.h = 0 ∨ body_img.w = 0 then none
        else some (resize_body body_img)
      | none => none
    { success := true
      error := none
      multiple_faces_detected := false
      face_count := all_faces.length
      selected_face_id := selected_face_id
      faces := []
      face_box := face_box
      body_box := body_box
      face_thumbnail := face_thumbnail
      body_crop := body_crop
      body_no_bg := body_no_bg }


/-- Claim C3: the identity comparator classifies a cosine similarity `s`
of two normalized embeddings exactly by the tiers `s > 0.60` ⇒ same
person at high confidence, `0.45 < s ≤ 0.60` ⇒ same person at medium
confidence, `0.30 < s ≤ 0.45` ⇒ different at low confidence, and
`s ≤ 0.30` ⇒ different at high confidence. -/
theorem similarity_tiers (s : ℚ) :
    ((0.60 : ℚ) < s → classify_similarity s = (true, "high", "very_similar")) ∧
    ((0.45 : ℚ) < s ∧ s ≤ 0.60 →
      classify_similarity s = (true, "medium", "similar")) ∧
    ((0.30 : ℚ) < s ∧ s ≤ 0.45 →
      classify_similarity s = (false, "low", "somewhat_similar")) ∧
    (s ≤ 0.30 → classify_similarity s = (false, "high", "different")) := by
  unfold classify_similarity
  refine ⟨fun h => by rw [if_pos h], fun h => ?_, fun h => ?_, fun h => ?_⟩
  · rw [if_neg (not_lt.mpr h.2), if_pos h.1]
  · rw [if_neg (not_lt.mpr (by linarith [h.2])), if_neg (not_lt.mpr h.2),
      if_pos h.1]
  · rw [if_neg (not_lt.mpr (by linarith)), if_neg (not_lt.mpr (by linarith)),
      if_neg (not_lt.mpr h)]

/-- Concrete evaluations of the four similarity tiers. -/
theorem similarity_tiers_witness :
    classify_similarity (7/10) = (true, "high", "very_similar") ∧
    classify_similarity (1/2) = (true, "medium", "similar") ∧
    classify_similarity (2/5) = (false, "low", "somewhat_similar") ∧
    classify_similarity (1/5) = (false, "high", "different") :=
  ⟨(similarity_tiers (7/10)).1 (by norm_num),
   (similarity_tiers (1/2)).2.1 (by norm_num),
   (similarity_tiers (2/5)).2.2.1 (by norm_num),
   (similarity_tiers (1/5)).2.2.2 (by norm_num)⟩

lemma abs_roundEven_sub (x : ℚ) : |(roundEven x : ℚ) - x| ≤ 1/2 := by
  have h1 : ((⌊x⌋ : ℚ)) ≤ x := Int.floor_le x
  have h2 : x < ⌊x⌋ + 1 := Int.lt_floor_add_one x
  unfold roundEven
  split_ifs with c1 c2 c3 <;>
    (rw [abs_le]; push_cast; constructor <;> linarith)

lemma roundEven_intCast (k : ℤ) : roundEven (k : ℚ) = k := by
  unfold roundEven
  rw [Int.floor_intCast]
  rw [if_pos (by norm_num)]

lemma fl64_eval (x : ℚ) (e : ℤ) (hx : 0 < x)
    (h1 : (2:ℚ) ^ e ≤ x) (h2 : x < (2:ℚ) ^ (e + 1)) :
    fl64 x = (roundEven (x * (2:ℚ) ^ ((52 : ℤ) - e)) : ℚ) *
      (2:ℚ) ^ (e - 52) := by
  have hlog : Int.log 2 x = e := by
    have ha : e ≤ Int.log 2 x := by
      refine (Int.zpow_le_iff_le_log (by norm_num) hx).mp ?_
      exact_mod_cast h1
    have hb : Int.log 2 x < e + 1 := by
      refine (Int.lt_zpow_iff_log_lt (by norm_num) hx).mp ?_
      exact_mod_cast h2
    omega
  unfold fl64
  rw [if_pos hx, hlog]

lemma fl64_error {x : ℚ} (hx : 0 < x) : |fl64 x - x| ≤ x / 2 ^ 53 := by
  have hlog1 : ((2 : ℕ) : ℚ) ^ (Int.log 2 x) ≤ x :=
    Int.zpow_log_le_self (by norm_num) hx
  have h2 : (2:ℚ) ≠ 0 := by norm_num
  have hfl : fl64 x =
      (roundEven (x * (2:ℚ) ^ ((52 : ℤ) - Int.log 2 x)) : ℚ) *
        (2:ℚ) ^ (Int.log 2 x - 52) := by
    unfold fl64
    rw [if_pos hx]
  set e := Int.log 2 x with he
  set m := x * (2:ℚ) ^ ((52 : ℤ) - e) with hm
  have hxm : m * (2:ℚ) ^ (e - 52) = x := by
    rw [hm, mul_assoc, ← zpow_add₀ h2]
    norm_num
  have hpos : (0:ℚ) < (2:ℚ) ^ (e - 52) := zpow_pos (by norm_num) _
  have hstep : |fl64 x - x| = |(roundEven m : ℚ) - m| * (2:ℚ) ^ (e - 52) := by
    rw [hfl, ← hxm, ← sub_mul, abs_mul, abs_of_pos hpos]
  rw [hstep]
  calc |(roundEven m : ℚ) - m| * (2:ℚ) ^ (e - 52)
      ≤ (1/2) * (2:ℚ) ^ (e - 52) :=
        mul_le_mul_of_nonneg_right (abs_roundEven_sub m) (le_of_lt hpos)
    _ = (2:ℚ) ^ e * (2:ℚ) ^ (-(53:ℤ)) := by
        rw [show (1/2 : ℚ) = (2:ℚ) ^ (-(1:ℤ)) by norm_num, ← zpow_add₀ h2,
          ← zpow_add₀ h2]
        congr 1
        ring
    _ ≤ x * (2:ℚ) ^ (-(53:ℤ)) := by
        refine mul_le_mul_of_nonneg_right ?_ (le_of_lt (zpow_pos (by norm_num) _))
        exact_mod_cast hlog1
    _ = x / 2 ^ 53 := by
        rw [zpow_neg, div_eq_mul_inv]
        norm_num

lemma fl64_pos {x : ℚ} (hx : 0 < x) : 0 < fl64 x := by
  have h := abs_le.mp (fl64_error hx)
  have hb : x / 2 ^ 53 < x := by
    rw [div_lt_iff₀ (by norm_num : (0:ℚ) < 2 ^ 53)]
    nlinarith
  linarith [h.1]

lemma fl64_nat (n : ℕ) (h0 : 0 < n) (h : n < 2 ^ 53) : fl64 (n : ℚ) = n := by
  have hq0 : (0:ℚ) < n := by exact_mod_cast h0
  have h1q : (1:ℚ) ≤ (n:ℚ) := by exact_mod_cast h0
  have he0 : 0 ≤ Int.log 2 (n:ℚ) :=
    (Int.zpow_le_iff_le_log (by norm_num) hq0).mp (by simpa using h1q)
  have he53 : Int.log 2 (n:ℚ) < 53 := by
    refine (Int.lt_zpow_iff_log_lt (by norm_num) hq0).mp ?_
    have hlt : ((n:ℚ)) < ((2:ℚ)) ^ (53:ℕ) := by exact_mod_cast h
    rw [show ((53:ℤ)) = ((53:ℕ):ℤ) by norm_num, zpow_natCast]
    exact_mod_cast hlt
  set e := Int.log 2 (n:ℚ) with he
  have hkey : (n:ℚ) * (2:ℚ) ^ ((52:ℤ) - e) =
      (((n * 2 ^ (52 - e).toNat : ℕ) : ℤ) : ℚ) := by
    have h52 : ((52:ℤ) - e) = (((52 - e).toNat : ℕ) : ℤ) := by omega
    rw [h52, zpow_natCast]
    push_cast
    simp
    omega
  unfold fl64
  rw [if_pos hq0, ← he, hkey, roundEven_intCast]
  push_cast
  rw [mul_assoc, ← zpow_natCast (2:ℚ) ((52 - e).toNat),
    ← zpow_add₀ (by norm_num : (2:ℚ) ≠ 0),
    show ((((52 - e).toNat : ℕ) : ℤ) + (e - 52)) = 0 by omega]
  norm_num

lemma le_natTrunc {n : ℕ} {q : ℚ} (h : (n : ℚ) ≤ q) : n ≤ natTrunc q := by
  unfold natTrunc int_trunc
  rcases le_or_lt 0 q with h0 | h0
  · rw [if_pos h0]
    have h1 : (n:ℤ) ≤ ⌊q⌋ := Int.le_floor.mpr (by exact_mod_cast h)
    omega
  · have ha : (0:ℚ) ≤ (n:ℚ) := Nat.cast_nonneg n
    linarith

lemma natTrunc_le_of_lt {n : ℕ} {q : ℚ} (h : q < (n:ℚ) + 1) : natTrunc q ≤ n := by
  unfold natTrunc int_trunc
  split_ifs with h0
  · have h1 : ⌊q⌋ < (n:ℤ) + 1 := Int.floor_lt.mpr (by push_cast; exact h)
    omega
  · have hc : ⌈q⌉ ≤ ⌈(0:ℚ)⌉ := Int.ceil_le_ceil (le_of_not_le h0)
    simp at hc
    omega

lemma cap_exact_side {n cap : ℕ} {a : ℚ} (hn : 0 < n) (hcap : 0 < cap)
    (hcap768 : cap ≤ 768) (ha : (n:ℚ) * a = cap) (hapos : 0 < a) :
    cap - 1 ≤ natTrunc (fl64 ((n:ℚ) * fl64 a)) ∧
    natTrunc (fl64 ((n:ℚ) * fl64 a)) ≤ cap := by
  have hnq : (0:ℚ) < n := by exact_mod_cast hn
  have hcapq : (0:ℚ) < cap := by exact_mod_cast hcap
  have hcap768q : (cap:ℚ) ≤ 768 := by exact_mod_cast hcap768
  have hfa := abs_le.mp (fl64_error hapos)
  have hfapos := fl64_pos hapos
  have hvpos : (0:ℚ) < (n:ℚ) * fl64 a := mul_pos hnq hfapos
  have hub : (n:ℚ) * fl64 a ≤ (cap:ℚ) + cap / 2 ^ 53 := by
    have h1 : fl64 a ≤ a + a / 2 ^ 53 := by linarith [hfa.2]
    calc (n:ℚ) * fl64 a ≤ (n:ℚ) * (a + a / 2 ^ 53) :=
          mul_le_mul_of_nonneg_left h1 (le_of_lt hnq)
      _ = (cap:ℚ) + cap / 2 ^ 53 := by rw [mul_add, ← mul_div_assoc, ha]
  have hlb : (cap:ℚ) - cap / 2 ^ 53 ≤ (n:ℚ) * fl64 a := by
    have h1 : a - a / 2 ^ 53 ≤ fl64 a := by linarith [hfa.1]
    calc (cap:ℚ) - cap / 2 ^ 53 = (n:ℚ) * (a - a / 2 ^ 53) := by
          rw [mul_sub, ← mul_div_assoc, ha]
      _ ≤ (n:ℚ) * fl64 a := mul_le_mul_of_nonneg_left h1 (le_of_lt hnq)
  have hfv := abs_le.mp (fl64_error hvpos)
  have hc : ((2:ℚ) ^ 53) = 9007199254740992 := by norm_num
  rw [hc] at hub hlb hfv
  constructor
  · refine le_natTrunc ?_
    rw [Nat.cast_sub hcap]
    push_cast
    linarith [hfv.1]
  · refine natTrunc_le_of_lt ?_
    linarith [hfv.2]

lemma cap_other_side {n cap : ℕ} {b s : ℚ} (hn : 0 < n) (hcap : 0 < cap)
    (hcap768 : cap ≤ 768) (hb : (n:ℚ) * b = cap) (hbpos : 0 < b)
    (hs : 0 < s) (hsle : s ≤ fl64 b) :
    natTrunc (fl64 ((n:ℚ) * s)) ≤ cap := by
  have hnq : (0:ℚ) < n := by exact_mod_cast hn
  have hcapq : (0:ℚ) < cap := by exact_mod_cast hcap
  have hcap768q : (cap:ℚ) ≤ 768 := by exact_mod_cast hcap768
  have hfb := abs_le.mp (fl64_error hbpos)
  have hvpos : (0:ℚ) < (n:ℚ) * s := mul_pos hnq hs
  have hub : (n:ℚ) * s ≤ (cap:ℚ) + cap / 2 ^ 53 := by
    have h1 : s ≤ b + b / 2 ^ 53 := le_trans hsle (by linarith [hfb.2])
    calc (n:ℚ) * s ≤ (n:ℚ) * (b + b / 2 ^ 53) :=
          mul_le_mul_of_nonneg_left h1 (le_of_lt hnq)
      _ = (cap:ℚ) + cap / 2 ^ 53 := by rw [mul_add, ← mul_div_assoc, hb]
  have hfv := abs_le.mp (fl64_error hvpos)
  have hc : ((2:ℚ) ^ 53) = 9007199254740992 := by norm_num
  rw [hc] at hub hfv
  refine natTrunc_le_of_lt ?_
  linarith [hfv.2]

/-- A 784×600 body crop: wide enough to trigger the resize, and sized so
binary64 rounding makes the scaled width miss the cap. -/
def wideBody : Img := ⟨600, 784, fun _ _ => ⟨0, 0, 0, 255⟩⟩

/-- Counterexample for claim C9 as stated: for a 784-pixel-wide crop the
program computes `int(784 * (512/784))` in binary64, which is
`int(511.99999999999994) = 511` — the larger-excess dimension does not
exactly meet its 512 cap. -/
theorem body_resize_cap_counterexample :
    512 < wideBody.w ∧ wideBody.h ≤ 768 ∧ (resize_body wideBody).w = 511 := by
  refine ⟨by decide, by decide, ?_⟩
  have hA : fl64 ((512:ℚ)/784) = 5882252574524729 / 2 ^ 53 := by
    rw [show ((512:ℚ)/784) = 32/49 by norm_num]
    rw [fl64_eval (32/49) (-1) (by norm_num) (by norm_num) (by norm_num)]
    rw [show ((32:ℚ)/49) * (2:ℚ) ^ ((52:ℤ) - (-1)) = 288230376151711744/49 by
      norm_num]
    rw [show roundEven ((288230376151711744:ℚ)/49) = 5882252574524729 by
      unfold roundEven
      rw [show ⌊(288230376151711744:ℚ)/49⌋ = 5882252574524729 by norm_num]
      norm_num]
    norm_num
  have hB : fl64 ((768:ℚ)/600) = 5764607523034235 / 2 ^ 52 := by
    rw [show ((768:ℚ)/600) = 32/25 by norm_num]
    rw [fl64_eval (32/25) 0 (by norm_num) (by norm_num) (by norm_num)]
    rw [show ((32:ℚ)/25) * (2:ℚ) ^ ((52:ℤ) - 0) = 144115188075855872/25 by
      norm_num]
    rw [show roundEven ((144115188075855872:ℚ)/25) = 5764607523034235 by
      unfold roundEven
      rw [show ⌊(144115188075855872:ℚ)/25⌋ = 5764607523034234 by norm_num]
      norm_num]
    norm_num
  have hW : fl64 ((784:ℚ)) = 784 := by
    have h := fl64_nat 784 (by norm_num) (by norm_num)
    norm_num at h
    exact h
  have hv : fl64 ((784:ℚ) * (5882252574524729 / 2 ^ 53)) =
      9007199254740991 / 2 ^ 44 := by
    rw [show ((784:ℚ) * (5882252574524729 / 2 ^ 53)) =
        288230376151711721/562949953421312 by norm_num]
    rw [fl64_eval (288230376151711721/562949953421312) 8 (by norm_num)
      (by norm_num) (by norm_num)]
    rw [show ((288230376151711721:ℚ)/562949953421312) * (2:ℚ) ^ ((52:ℤ) - 8) =
        288230376151711721/32 by norm_num]
    rw [show roundEven ((288230376151711721:ℚ)/32) = 9007199254740991 by
      unfold roundEven
      rw [show ⌊(288230376151711721:ℚ)/32⌋ = 9007199254740991 by norm_num]
      norm_num]
    norm_num
  have hdims : (resize_body_dims 784 600).1 = 511 := by
    unfold resize_body_dims
    rw [if_pos (by norm_num)]
    simp only
    push_cast
    rw [hW, hA, hB]
    rw [min_eq_left (by norm_num)]
    rw [hv]
    unfold natTrunc int_trunc
    rw [if_pos (by norm_num)]
    rw [show ⌊(9007199254740991:ℚ)/2 ^ 44⌋ = 511 by norm_num]
    rfl
  have hred : (resize_body wideBody).w = (resize_body_dims 784 600).1 := by
    unfold resize_body
    rw [if_pos (by decide)]
    rfl
  rw [hred, hdims]

/-- Claim C9 (amended): a body crop within the 512×768 envelope is
returned untouched; one exceeding it is downscaled by the single
floating-point factor `min(512/w, 768/h)` (each quotient correctly
rounded to binary64), and the dimension whose rounded quotient attains
that minimum lands on its cap to within one pixel of binary64 rounding —
width 511 or 512, height 767 or 768 — while the other dimension stays at
or below its cap. -/
theorem body_resize_capped (im : Img) (hw : 0 < im.w) (hh : 0 < im.h)
    (hw53 : im.w < 2 ^ 53) (hh53 : im.h < 2 ^ 53) :
    (im.w ≤ 512 ∧ im.h ≤ 768 → resize_body im = im) ∧
    (512 < im.w ∨ 768 < im.h →
      (fl64 ((512 : ℚ) / im.w) ≤ fl64 ((768 : ℚ) / im.h) →
        511 ≤ (resize_body im).w ∧ (resize_body im).w ≤ 512 ∧
          (resize_body im).h ≤ 768) ∧
      (fl64 ((768 : ℚ) / im.h) ≤ fl64 ((512 : ℚ) / im.w) →
        767 ≤ (resize_body im).h ∧ (resize_body im).h ≤ 768 ∧
          (resize_body im).w ≤ 512)) := by
  have hwq : (0:ℚ) < im.w := by exact_mod_cast hw
  have hhq : (0:ℚ) < im.h := by exact_mod_cast hh
  have hwne : (im.w:ℚ) ≠ 0 := ne_of_gt hwq
  have hhne : (im.h:ℚ) ≠ 0 := ne_of_gt hhq
  have hapos : (0:ℚ) < (512 : ℚ) / im.w := by positivity
  have hbpos : (0:ℚ) < (768 : ℚ) / im.h := by positivity
  have hwa : (im.w:ℚ) * ((512 : ℚ) / im.w) = ((512:ℕ):ℚ) := by
    push_cast
    field_simp
  have hhb : (im.h:ℚ) * ((768 : ℚ) / im.h) = ((768:ℕ):ℚ) := by
    push_cast
    field_simp
  have hWexact : fl64 ((im.w : ℕ) : ℚ) = im.w := fl64_nat im.w hw hw53
  have hHexact : fl64 ((im.h : ℕ) : ℚ) = im.h := fl64_nat im.h hh hh53
  constructor
  · rintro ⟨h1, h2⟩
    unfold resize_body
    rw [if_neg (by push_neg; exact ⟨h1, h2⟩)]
  · intro hcap
    have hdims : resize_body_dims im.w im.h =
        (natTrunc (fl64 ((im.w:ℚ) *
            min (fl64 ((512:ℚ)/im.w)) (fl64 ((768:ℚ)/im.h)))),
         natTrunc (fl64 ((im.h:ℚ) *
            min (fl64 ((512:ℚ)/im.w)) (fl64 ((768:ℚ)/im.h))))) := by
      unfold resize_body_dims
      rw [if_pos hcap, hWexact, hHexact]
    have hw' : (resize_body im).w = natTrunc (fl64 ((im.w:ℚ) *
        min (fl64 ((512:ℚ)/im.w)) (fl64 ((768:ℚ)/im.h)))) := by
      unfold resize_body
      rw [if_pos hcap, hdims]
      rfl
    have hh' : (resize_body im).h = natTrunc (fl64 ((im.h:ℚ) *
        min (fl64 ((512:ℚ)/im.w)) (fl64 ((768:ℚ)/im.h)))) := by
      unfold resize_body
      rw [if_pos hcap, hdims]
      rfl
    constructor
    · intro hle
      rw [hw', hh', min_eq_left hle]
      have h1 := cap_exact_side hw (by norm_num) (by norm_num) hwa hapos
      have h2 := cap_other_side hh (by norm_num) (by norm_num) hhb hbpos
        (fl64_pos hapos) hle
      refine ⟨?_, h1.2, h2⟩
      omega
    · intro hle
      rw [hw', hh', min_eq_right hle]
      have h1 := cap_exact_side hh (by norm_num) (by norm_num) hhb hbpos
      have h2 := cap_other_side hw (by norm_num) (by norm_num) hwa hapos
        (fl64_pos hbpos) hle
      refine ⟨?_, h1.2, h2⟩
      omega

/-- A 1024×256 crop used to exercise the resize policy. -/
def imgWide : Img :=
  ⟨256, 1024, fun _ _ => ⟨0, 0, 0, 255⟩⟩

/-- Concrete evaluation of the resize policy: a 1024-wide, 256-high crop
lands within one pixel of the 512 width cap, with the height at or below
its cap. -/
theorem body_resize_capped_witness :
    511 ≤ (resize_body imgWide).w ∧ (resize_body imgWide).w ≤ 512 ∧
      (resize_body imgWide).h ≤ 768 := by
  have e1 : fl64 ((512:ℚ)/1024) = 1/2 := by
    rw [show ((512:ℚ)/1024) = 1/2 by norm_num]
    rw [fl64_eval (1/2) (-1) (by norm_num) (by norm_num) (by norm_num)]
    rw [show ((1:ℚ)/2) * (2:ℚ) ^ ((52:ℤ) - (-1)) = 4503599627370496 by
      norm_num]
    rw [show roundEven ((4503599627370496:ℚ)) = 4503599627370496 by
      unfold roundEven
      rw [show ⌊(4503599627370496:ℚ)⌋ = 4503599627370496 by norm_num]
      norm_num]
    norm_num
  have e2 : fl64 ((768:ℚ)/256) = 3 := by
    rw [show ((768:ℚ)/256) = 3 by norm_num]
    have h := fl64_nat 3 (by norm_num) (by norm_num)
    norm_num at h
    exact h
  refine ((body_resize_capped imgWide (by decide) (by decide) (by decide)
    (by decide)).2 (by decide)).1 ?_
  show fl64 ((512:ℚ)/(imgWide.w:ℚ)) ≤ fl64 ((768:ℚ)/(imgWide.h:ℚ))
  rw [show ((imgWide.w:ℕ):ℚ) = (1024:ℚ) by norm_num [imgWide]]
  rw [show ((imgWide.h:ℕ):ℚ) = (256:ℚ) by norm_num [imgWide]]
  rw [e1, e2]
  norm_num

lemma filter_singleton_of_nodup {α : Type} [DecidableEq α] {l : List α} {a : α}
    (hn : l.Nodup) (ha : a ∈ l) :
    l.filter (fun c => decide (c = a)) = [a] := by
  induction l with
  | nil => cases ha
  | cons b t ih =>
    rcases List.nodup_cons.mp hn with ⟨hbt, hnt⟩
    by_cases hba : b = a
    · subst hba
      have ht : t.filter (fun c => decide (c = b)) = [] := by
        rw [List.filter_eq_nil_iff]
        intro c hc
        simp only [decide_eq_true_eq]
        intro hcb
        exact hbt (hcb ▸ hc)
      simp [List.filter_cons, ht]
    · have hat : a ∈ t := by
        rcases List.mem_cons.mp ha with h | h
        · exact absurd h.symm hba
        · exact h
      simp [List.filter_cons, hba, ih hnt hat]

lemma nonzeroCoords_eq_nil {m : Mask}
    (h : ∀ y, y < m.h → ∀ x, x < m.w → m.px y x = 0) :
    nonzeroCoords m = [] := by
  unfold nonzeroCoords
  rw [List.filter_eq_nil_iff]
  rintro ⟨cy, cx⟩ hc
  rcases List.pair_mem_product.mp hc with ⟨hy, hx⟩
  simp only [decide_eq_true_eq]
  intro hne
  exact hne (h cy (List.mem_range.mp hy) cx (List.mem_range.mp hx))

lemma nonzeroCoords_eq_singleton {m : Mask} {px py : ℕ}
    (hpx : px < m.w) (hpy : py < m.h)
    (h : ∀ y, y < m.h → ∀ x, x < m.w → (m.px y x ≠ 0 ↔ y = py ∧ x = px)) :
    nonzeroCoords m = [(py, px)] := by
  unfold nonzeroCoords
  have hcongr : ((List.range m.h).product (List.range m.w)).filter
      (fun c => decide (m.px c.1 c.2 ≠ 0)) =
      ((List.range m.h).product (List.range m.w)).filter
      (fun c => decide (c = (py, px))) := by
    refine List.filter_congr ?_
    rintro ⟨cy, cx⟩ hc
    rcases List.pair_mem_product.mp hc with ⟨hy, hx⟩
    rw [decide_eq_decide]
    rw [h cy (List.mem_range.mp hy) cx (List.mem_range.mp hx)]
    constructor
    · rintro ⟨h1, h2⟩; subst h1; subst h2; rfl
    · intro he
      injection he with h1 h2
      exact ⟨h1, h2⟩
  rw [hcongr]
  refine filter_singleton_of_nodup ?_ ?_
  · exact List.Nodup.product (List.nodup_range m.h) (List.nodup_range m.w)
  · exact List.pair_mem_product.mpr ⟨List.mem_range.mpr hpy, List.mem_range.mpr hpx⟩

/-- Claim C6: `get_body_bounds_from_mask` on an all-zero mask returns
none; on a mask whose only nonzero pixel sits at column `px`, row `py`,
the bounding rectangle before padding is the 1×1 pixel rectangle at
`(px, py)` and a box (its padded conversion to percentage space) is
returned. -/
theorem bounds_from_mask_cases (m : Mask) (p : ℚ) :
    ((∀ y, y < m.h → ∀ x, x < m.w → m.px y x = 0) →
      get_body_bounds_from_mask m p = none) ∧
    (∀ px py, px < m.w → py < m.h →
      (∀ y, y < m.h → ∀ x, x < m.w → (m.px y x ≠ 0 ↔ y = py ∧ x = px)) →
      boundingRect m = some (px, py, 1, 1) ∧
      (get_body_bounds_from_mask m p).isSome = true) := by
  constructor
  · intro h
    have hz : nonzeroCoords m = [] := nonzeroCoords_eq_nil h
    unfold get_body_bounds_from_mask boundingRect
    rw [hz]
  · intro px py hpx hpy h
    have hs : nonzeroCoords m = [(py, px)] := nonzeroCoords_eq_singleton hpx hpy h
    have hbr : boundingRect m = some (px, py, 1, 1) := by
      unfold boundingRect
      rw [hs]
      simp
    refine ⟨hbr, ?_⟩
    unfold get_body_bounds_from_mask
    rw [hbr]
    rfl

/-- A 4×4 mask whose single nonzero pixel sits at column 2, row 1, and
an all-zero 3×3 mask. -/
def maskOne : Mask :=
  ⟨4, 4, fun y x => if y = 1 ∧ x = 2 then 255 else 0⟩

/-- An all-zero 3×3 mask. -/
def maskZero : Mask :=
  ⟨3, 3, fun _ _ => 0⟩

/-- Concrete evaluations of the two mask-bounds cases. -/
theorem bounds_from_mask_cases_witness :
    get_body_bounds_from_mask maskZero (5/100) = none ∧
    (boundingRect maskOne = some (2, 1, 1, 1) ∧
      (get_body_bounds_from_mask maskOne (5/100)).isSome = true) :=
  ⟨(bounds_from_mask_cases maskZero (5/100)).1 (by decide),
   (bounds_from_mask_cases maskOne (5/100)).2 2 1 (by decide) (by decide)
     (by decide)⟩

lemma isDup_symm {a b : Face} : isDup a b ↔ isDup b a := by
  unfold isDup
  rw [abs_sub_comm, abs_sub_comm (a.y + a.height / 2)]

lemma dedup_insert_of_no_dup {acc : List Face} {f : Face}
    (h : ∀ e ∈ acc, ¬ isDup f e) :
    dedup_insert acc f = acc ++ [f] := by
  induction acc with
  | nil => rfl
  | cons e es ih =>
    unfold dedup_insert
    rw [if_neg (h e (List.mem_cons_self e es))]
    rw [ih (fun e' he' => h e' (List.mem_cons_of_mem e he'))]
    rfl

lemma foldl_dedup_insert {l : List Face} :
    ∀ acc, (∀ e ∈ acc, ∀ f ∈ l, ¬ isDup f e) →
    l.Pairwise (fun a b => ¬ isDup b a) →
    l.foldl dedup_insert acc = acc ++ l := by
  induction l with
  | nil => intro acc _ _; simp
  | cons f t ih =>
    intro acc hcross hp
    rcases List.pairwise_cons.mp hp with ⟨hf, ht⟩
    have h1 : dedup_insert acc f = acc ++ [f] :=
      dedup_insert_of_no_dup (fun e he => hcross e he f (List.mem_cons_self f t))
    have h2 : ∀ e ∈ acc ++ [f], ∀ g ∈ t, ¬ isDup g e := by
      intro e he g hg
      rcases List.mem_append.mp he with h | h
      · exact hcross e h g (List.mem_cons_of_mem f hg)
      · rw [List.mem_singleton.mp h]
        exact hf g hg
    calc (f :: t).foldl dedup_insert acc
        = t.foldl dedup_insert (dedup_insert acc f) := rfl
      _ = t.foldl dedup_insert (acc ++ [f]) := by rw [h1]
      _ = (acc ++ [f]) ++ t := ih (acc ++ [f]) h2 ht
      _ = acc ++ f :: t := by rw [List.append_assoc, List.singleton_append]

/-- Claim C8: the duplicate-merge step is idempotent on deduplicated
input: a candidate list in which no two members' box centers are within
10 percentage points on both axes passes through `merge_faces`
unchanged. -/
theorem dedup_idempotent (l : List Face)
    (h : l.Pairwise (fun a b => ¬ isDup a b)) : merge_faces l = l := by
  have h' : l.Pairwise (fun a b => ¬ isDup b a) :=
    h.imp (fun hab hd => hab (isDup_symm.mp hd))
  unfold merge_faces
  rw [foldl_dedup_insert [] (by intro e he; cases he) h']
  rfl

/-- Two well-separated candidates used to exercise idempotence. -/
def facePairSeparated : List Face :=
  [⟨0, 10, 10, 20, 20, 9/10⟩, ⟨1, 60, 10, 20, 20, 7/10⟩]

/-- Concrete evaluation of merge idempotence on a deduplicated pair. -/
theorem dedup_idempotent_witness :
    merge_faces facePairSeparated = facePairSeparated :=
  dedup_idempotent facePairSeparated
    (by norm_num [facePairSeparated, List.pairwise_cons, isDup, abs_lt])

lemma renumberAux_length (i : ℕ) (l : List Face) :
    (renumberAux i l).length = l.length := by
  induction l generalizing i with
  | nil => rfl
  | cons f fs ih => simp [renumberAux, ih]

lemma renumberAux_map_id (i : ℕ) (l : List Face) :
    (renumberAux i l).map Face.id = List.range' i l.length := by
  induction l generalizing i with
  | nil => rfl
  | cons f fs ih => simp [renumberAux, List.range', ih]

lemma idsContiguous_renumber (l : List Face) : idsContiguous (renumber l) := by
  unfold idsContiguous renumber
  rw [renumberAux_map_id, renumberAux_length, List.range_eq_range']

/-- Claim C2 (amended): the Face Candidate Finder's returned candidate
list always carries contiguous ids `0..N-1`, in every branch (Tasks,
legacy, cascade fallback), because each ends in a renumber pass. -/
theorem finder_ids_contiguous (tasksAvail legacyAvail : Bool)
    (taskDets : List TaskDet) (dets0 dets1 : List MpDet)
    (cvDets : List CvDet) (imgW imgH : ℕ) (minc : ℚ) :
    idsContiguous (detect_all_faces_mediapipe tasksAvail legacyAvail taskDets
      dets0 dets1 cvDets imgW imgH minc) := by
  simp only [detect_all_faces_mediapipe, legacy_primary, detect_all_faces_opencv]
  split_ifs <;> exact idsContiguous_renumber _

/-- A legacy detection whose face box is 2 percent wide (detector noise)
but carries the top confidence. -/
def mpNear : MpDet := ⟨1/5, 1/5, 1/50, 1/20, 9/10⟩

/-- A legacy detection with a full-size face box at lower confidence. -/
def mpFar : MpDet := ⟨1/2, 1/2, 1/10, 1/10, 1/2⟩

/-- The finder output for `mpNear`: rank 0, 2 percent wide. -/
def tinyTopFace : Face := ⟨0, 20, 20, 2, 5, 9/10⟩

/-- The finder output for `mpFar`: rank 1, 10 percent wide. -/
def bigSecondFace : Face := ⟨1, 50, 50, 10, 10, 1/2⟩

/-- Counterexample for claim C2 as stated: the candidate list
`[tinyTopFace, bigSecondFace]` is a genuine finder output (first
conjunct), yet the minimum-size filter pass of `process_photo` drops the
2-percent-wide rank-0 candidate without reassigning ids, leaving the
single survivor with id 1 — not the contiguous range `0..0`. -/
theorem ids_after_size_filter_counterexample :
    detect_all_faces_mediapipe false true [] [mpNear, mpFar] [] [] 100 100
      (3/20) = [tinyTopFace, bigSecondFace] ∧
    sizeFilter [tinyTopFace, bigSecondFace] = [bigSecondFace] ∧
    ¬ idsContiguous (sizeFilter [tinyTopFace, bigSecondFace]) := by
  have h2 : sizeFilter [tinyTopFace, bigSecondFace] = [bigSecondFace] := by
    norm_num [sizeFilter, List.filter_cons, List.filter_nil, tinyTopFace,
      bigSecondFace]
  refine ⟨?_, h2, ?_⟩
  · norm_num [detect_all_faces_mediapipe, legacy_primary, legacy_collect,
      detect_all_faces_opencv, dedup_insert, mkLegacyFace, isDup, List.foldl,
      renumber, renumberAux, List.mergeSort, List.merge, leConf, mpNear, mpFar,
      tinyTopFace, bigSecondFace]
  · rw [h2]
    decide

lemma eraseRegion_alpha {image : Img} {y1 y2 x1 x2 : ℤ} {y x : ℕ}
    (h : (image.px y x).a = 0) :
    ((eraseRegion image y1 y2 x1 x2).px y x).a = 0 := by
  unfold eraseRegion
  dsimp only
  split_ifs <;> simp [h]

lemma rfe_step_alpha {w h : ℕ} {selCx : ℤ} {keep : ℕ} {image : Img} {f : Face}
    {y x : ℕ} (ha : (image.px y x).a = 0) :
    ((rfe_step w h selCx keep image f).px y x).a = 0 := by
  unfold rfe_step
  simp only []
  split_ifs <;>
    first
      | exact ha
      | exact eraseRegion_alpha ha
      | exact eraseRegion_alpha (eraseRegion_alpha ha)

lemma foldl_rfe_alpha {w h : ℕ} {selCx : ℤ} {keep : ℕ} {y x : ℕ}
    (faces : List Face) (image : Img) (ha : (image.px y x).a = 0) :
    ((faces.foldl (rfe_step w h selCx keep) image).px y x).a = 0 := by
  induction faces generalizing image with
  | nil => exact ha
  | cons f fs ih => exact ih (rfe_step w h selCx keep image f) (rfe_step_alpha ha)

/-- Claim C4: the occlusion compositor is monotonic in transparency — a
pixel whose alpha is 0 in the input image, or becomes 0 after any prefix
of the per-candidate erasure loop, still has alpha 0 in the image
`remove_faces_except` returns. -/
theorem occlusion_monotonic (image : Img) (keep : ℕ) (faces : List Face)
    (y x : ℕ) :
    ((image.px y x).a = 0 →
      ((remove_faces_except image keep faces).px y x).a = 0) ∧
    (∀ sel pre post, faces = pre ++ post →
      faces.find? (fun f => decide (f.id = keep)) = some sel →
      1 < faces.length →
      ((pre.foldl (rfe_step image.w image.h (faceCenterXpx sel image.w) keep)
          image).px y x).a = 0 →
      ((remove_faces_except image keep faces).px y x).a = 0) := by
  constructor
  · intro ha
    unfold remove_faces_except
    split_ifs with hlen
    · exact ha
    · cases hf : faces.find? (fun f => decide (f.id = keep)) with
      | none => exact ha
      | some sel => exact foldl_rfe_alpha faces image ha
  · intro sel pre post hsplit hfind hlen1 ha
    unfold remove_faces_except
    split_ifs with hlen
    · omega
    · rw [hfind]
      subst hsplit
      have := @foldl_rfe_alpha image.w image.h (faceCenterXpx sel image.w)
        keep y x post _ ha
      rw [← List.foldl_append] at this
      exact this

/-- A 4×4 BGRA test image transparent at pixel (0,0) and opaque
elsewhere. -/
def imgOneClear : Img :=
  ⟨4, 4, fun y x => if y = 0 ∧ x = 0 then ⟨5, 5, 5, 0⟩ else ⟨5, 5, 5, 255⟩⟩

/-- Concrete evaluation of occlusion monotonicity: the pixel transparent
at entry and still transparent after the first loop step keeps alpha 0 in
the final image. -/
theorem occlusion_monotonic_witness :
    ((remove_faces_except imgOneClear 0 facePairSeparated).px 0 0).a = 0 ∧
    ((remove_faces_except imgOneClear 0 facePairSeparated).px 0 0).a = 0 :=
  ⟨(occlusion_monotonic imgOneClear 0 facePairSeparated 0 0).1 (by decide),
   (occlusion_monotonic imgOneClear 0 facePairSeparated 0 0).2
     ⟨0, 10, 10, 20, 20, 9/10⟩
     [⟨0, 10, 10, 20, 20, 9/10⟩] [⟨1, 60, 10, 20, 20, 7/10⟩]
     rfl rfl (by decide) (by decide)⟩

lemma renumberAux_map_conf (i : ℕ) (l : List Face) :
    (renumberAux i l).map Face.confidence = l.map Face.confidence := by
  induction l generalizing i with
  | nil => rfl
  | cons f fs ih => simp [renumberAux, ih]

lemma leConf_iff {a b : Face} : leConf a b = true ↔ b.confidence ≤ a.confidence := by
  simp [leConf]

lemma pairwise_leConf_of_map_conf_eq {l1 l2 : List Face}
    (h : l1.map Face.confidence = l2.map Face.confidence)
    (hp : l1.Pairwise (fun a b => leConf a b = true)) :
    l2.Pairwise (fun a b => leConf a b = true) := by
  have h1 : (l1.map Face.confidence).Pairwise (fun p q : ℚ => q ≤ p) :=
    List.pairwise_map.mpr (hp.imp (fun hab => leConf_iff.mp hab))
  rw [h] at h1
  exact (List.pairwise_map.mp h1).imp (fun hab => leConf_iff.mpr hab)

lemma leConf_trans : ∀ a b c : Face,
    leConf a b = true → leConf b c = true → leConf a c = true := by
  intro a b c h1 h2
  rw [leConf_iff] at h1 h2 ⊢
  exact le_trans h2 h1

lemma leConf_total : ∀ a b : Face, (leConf a b || leConf b a) = true := by
  intro a b
  rw [Bool.or_eq_true, leConf_iff, leConf_iff]
  exact le_total b.confidence a.confidence

lemma renumber_sorted_leConf {l : List Face}
    (h : l.Pairwise (fun a b => leConf a b = true)) :
    (renumber l).Pairwise (fun a b => leConf a b = true) :=
  pairwise_leConf_of_map_conf_eq (renumberAux_map_conf 0 l).symm h

lemma tasks_sorted (dets : List TaskDet) (imgW imgH : ℕ) :
    (detect_all_faces_mediapipe_tasks dets imgW imgH).Pairwise
      (fun a b => leConf a b = true) := by
  unfold detect_all_faces_mediapipe_tasks
  exact renumber_sorted_leConf (List.sorted_mergeSort leConf_trans leConf_total _)

lemma opencv_conf {dets : List CvDet} {imgW imgH : ℕ} :
    ∀ f ∈ detect_all_faces_opencv dets imgW imgH, f.confidence = 1/2 := by
  intro f hf
  unfold detect_all_faces_opencv at hf
  have h1 := List.mem_map_of_mem Face.confidence hf
  rw [renumber, renumberAux_map_conf] at h1
  rcases List.mem_map.mp h1 with ⟨g, hg, hgc⟩
  rw [List.mem_mergeSort] at hg
  rcases List.mem_filterMap.mp hg with ⟨p, _, hpe⟩
  simp only at hpe
  split_ifs at hpe
  all_goals
    cases hpe
  all_goals
    exact hgc.symm

lemma opencv_sorted_leConf (dets : List CvDet) (imgW imgH : ℕ) :
    (detect_all_faces_opencv dets imgW imgH).Pairwise
      (fun a b => leConf a b = true) := by
  refine List.pairwise_of_forall_mem_list ?_
  intro a ha b hb
  rw [leConf_iff, opencv_conf a ha, opencv_conf b hb]

lemma renumberAux_eq_self : ∀ {i : ℕ} {l : List Face},
    l.map Face.id = List.range' i l.length → renumberAux i l = l := by
  intro i l
  induction l generalizing i with
  | nil => intro _; rfl
  | cons f fs ih =>
    intro h
    simp only [List.map_cons, List.length_cons, List.range'] at h
    injection h with h1 h2
    unfold renumberAux
    rw [ih h2]
    congr 1
    cases f
    simp_all

lemma renumber_eq_self {l : List Face}
    (h : l.map Face.id = List.range l.length) : renumber l = l := by
  unfold renumber
  exact renumberAux_eq_self (by rw [h, List.range_eq_range'])

lemma opencv_resort_fixed (dets : List CvDet) (imgW imgH : ℕ) :
    renumber ((detect_all_faces_opencv dets imgW imgH).mergeSort leConf) =
      detect_all_faces_opencv dets imgW imgH := by
  rw [List.mergeSort_of_sorted (opencv_sorted_leConf dets imgW imgH)]
  refine renumber_eq_self ?_
  have h := idsContiguous_renumber
    ((dets.enum.filterMap (fun p =>
      let d := p.2
      let aspect : ℚ := if 0 < d.h then (d.w : ℚ) / d.h else 0
      if aspect < 1/2 ∨ 2 < aspect then none
      else some { id := p.1
                  x := (d.x : ℚ) / imgW * 100
                  y := (d.y : ℚ) / imgH * 100
                  width := (d.w : ℚ) / imgW * 100
                  height := (d.h : ℚ) / imgH * 100
                  confidence := 1/2 })).mergeSort leArea)
  exact h

/-- Claim C5: when the primary neural detector yields fewer than two
candidates at or above the acceptance threshold, the cascade fallback is
consulted and its result returned exactly when it yields strictly more
candidates; on a tie or fewer the primary candidates are returned (the
Tasks branch reassigns their ranks on return).  Stated for both neural
branches of `detect_all_faces_mediapipe`. -/
theorem detector_fallback (taskDets : List TaskDet) (dets0 dets1 : List MpDet)
    (cvDets : List CvDet) (imgW imgH : ℕ) (minc : ℚ) :
    ((legacy_primary minc dets0 dets1).length < 2 →
      detect_all_faces_mediapipe false true taskDets dets0 dets1 cvDets
          imgW imgH minc =
        if (legacy_primary minc dets0 dets1).length <
            (detect_all_faces_opencv cvDets imgW imgH).length
        then detect_all_faces_opencv cvDets imgW imgH
        else legacy_primary minc dets0 dets1) ∧
    (∀ legacyAvail,
      ((detect_all_faces_mediapipe_tasks taskDets imgW imgH).filter
          (fun f => decide (minc ≤ f.confidence))).length < 2 →
      detect_all_faces_mediapipe true legacyAvail taskDets dets0 dets1 cvDets
          imgW imgH minc =
        if ((detect_all_faces_mediapipe_tasks taskDets imgW imgH).filter
              (fun f => decide (minc ≤ f.confidence))).length <
            (detect_all_faces_opencv cvDets imgW imgH).length
        then detect_all_faces_opencv cvDets imgW imgH
        else renumber ((detect_all_faces_mediapipe_tasks taskDets imgW imgH).filter
              (fun f => decide (minc ≤ f.confidence)))) := by
  constructor
  · intro h
    simp only [detect_all_faces_mediapipe, Bool.false_eq_true, if_false,
      if_true, if_pos h]
  · intro legacyAvail h
    have hsorted : ((detect_all_faces_mediapipe_tasks taskDets imgW imgH).filter
        (fun f => decide (minc ≤ f.confidence))).Pairwise
        (fun a b => leConf a b = true) :=
      (tasks_sorted taskDets imgW imgH).filter _
    simp only [detect_all_faces_mediapipe, if_true, if_pos h]
    split_ifs with hcmp
    · exact opencv_resort_fixed cvDets imgW imgH
    · rw [List.mergeSort_of_sorted hsorted]

/-- Concrete evaluation of the fallback policy in the legacy branch: an
empty primary result escalates to the cascade, whose single detection is
returned. -/
theorem detector_fallback_witness :
    detect_all_faces_mediapipe false true [] [] [] [⟨0, 0, 10, 10⟩] 100 100
      (3/20) = detect_all_faces_opencv [⟨0, 0, 10, 10⟩] 100 100 := by
  rw [(detector_fallback [] [] [] [⟨0, 0, 10, 10⟩] 100 100 (3/20)).1
    (by norm_num [legacy_primary, legacy_collect, List.mergeSort, renumber,
      renumberAux])]
  norm_num [detect_all_faces_opencv, legacy_primary, legacy_collect,
    List.mergeSort, renumber, renumberAux, List.enum, List.enumFrom,
    List.filterMap_cons, List.filterMap_nil]

/-- A 10×10 image whose blue channel stores the column index, so crops
from different offsets are distinguishable. -/
def gridImg : Img := ⟨10, 10, fun y x => ⟨x, y, 0, 255⟩⟩

/-- A box whose x origin (26 percent of a 10-pixel-wide image, 2.6
pixels) truncates to 2 but rounds to 3. -/
def offBox : Box := ⟨26, 0, 50, 100⟩

/-- Counterexample for claim C7 as stated: `crop_to_box` converts with
Python `int()` truncation, not rounding — on a 10-pixel image and a box
at x = 26 percent the crop starts at pixel column 2 while the claimed
rounding conversion starts it at column 3, so the produced sub-images
differ. -/
theorem crop_round_counterexample :
    crop_to_box gridImg offBox ≠ crop_to_box_round gridImg offBox := by
  intro hcontra
  have h2 : ((crop_to_box gridImg offBox).px 0 0).b =
      ((crop_to_box_round gridImg offBox).px 0 0).b := by rw [hcontra]
  have e1 : ((crop_to_box gridImg offBox).px 0 0).b = 2 := by
    norm_num [crop_to_box, sub_image, gridImg, offBox, int_trunc]
    rfl
  have e2 : ((crop_to_box_round gridImg offBox).px 0 0).b = 3 := by
    norm_num [crop_to_box_round, sub_image, gridImg, offBox, round_eq]
    rfl
  rw [e1, e2] at h2
  exact absurd h2 (by norm_num)

/-- Claim C7 (amended): for the pipeline's non-negative percentage
boxes, `crop_to_box` converts each coordinate by truncation
(`pixel = int(pct/100 * dimension)`, i.e. floor), clamps the origin to
`≥ 0` and the far corner to the image dimension, and returns the pixel
sub-image; a zero-width or zero-height result is an ordinary value, not
an error. -/
theorem crop_to_box_truncates (image : Img) (box : Box)
    (hx : 0 ≤ box.x) (hy : 0 ≤ box.y) (hw : 0 ≤ box.width)
    (hh : 0 ≤ box.height) :
    crop_to_box image box = crop_to_box_trunc_spec image box := by
  have hqx : (0 : ℚ) ≤ box.x / 100 * image.w :=
    mul_nonneg (div_nonneg hx (by norm_num)) (Nat.cast_nonneg _)
  have hqy : (0 : ℚ) ≤ box.y / 100 * image.h :=
    mul_nonneg (div_nonneg hy (by norm_num)) (Nat.cast_nonneg _)
  have hqw : (0 : ℚ) ≤ box.width / 100 * image.w :=
    mul_nonneg (div_nonneg hw (by norm_num)) (Nat.cast_nonneg _)
  have hqh : (0 : ℚ) ≤ box.height / 100 * image.h :=
    mul_nonneg (div_nonneg hh (by norm_num)) (Nat.cast_nonneg _)
  have ex : int_trunc (box.x / 100 * image.w) = ⌊box.x / 100 * (image.w : ℚ)⌋ := by
    rw [int_trunc, if_pos hqx]
  have ey : int_trunc (box.y / 100 * image.h) = ⌊box.y / 100 * (image.h : ℚ)⌋ := by
    rw [int_trunc, if_pos hqy]
  have ew : int_trunc (box.width / 100 * image.w) =
      ⌊box.width / 100 * (image.w : ℚ)⌋ := by
    rw [int_trunc, if_pos hqw]
  have eh : int_trunc (box.height / 100 * image.h) =
      ⌊box.height / 100 * (image.h : ℚ)⌋ := by
    rw [int_trunc, if_pos hqh]
  have fx0 : 0 ≤ ⌊box.x / 100 * (image.w : ℚ)⌋ := Int.floor_nonneg.mpr hqx
  have fy0 : 0 ≤ ⌊box.y / 100 * (image.h : ℚ)⌋ := Int.floor_nonneg.mpr hqy
  have fw0 : 0 ≤ ⌊box.width / 100 * (image.w : ℚ)⌋ := Int.floor_nonneg.mpr hqw
  have fh0 : 0 ≤ ⌊box.height / 100 * (image.h : ℚ)⌋ := Int.floor_nonneg.mpr hqh
  simp only [crop_to_box, crop_to_box_trunc_spec, sub_image, ex, ey, ew, eh]
  rw [Img.mk.injEq]
  refine ⟨by omega, by omega, ?_⟩
  funext y x
  have e1 : y + (max 0 ⌊box.y / 100 * (image.h : ℚ)⌋).toNat =
      (⌊box.y / 100 * (image.h : ℚ)⌋).toNat + y := by omega
  have e2 : x + (max 0 ⌊box.x / 100 * (image.w : ℚ)⌋).toNat =
      (⌊box.x / 100 * (image.w : ℚ)⌋).toNat + x := by omega
  rw [e1, e2]

/-- Concrete evaluation of the truncation refinement at the 26-percent
box. -/
theorem crop_to_box_truncates_witness :
    crop_to_box gridImg offBox = crop_to_box_trunc_spec gridImg offBox :=
  crop_to_box_truncates gridImg offBox (by norm_num [offBox])
    (by norm_num [offBox]) (by norm_num [offBox]) (by norm_num [offBox])

/-- A 10×10 opaque photograph. -/
def plainImg : Img := ⟨10, 10, fun _ _ => ⟨0, 0, 0, 255⟩⟩

/-- A 10×10 fully opaque background-removed image. -/
def plainRgba : Img := ⟨10, 10, fun _ _ => ⟨9, 9, 9, 255⟩⟩

/-- A 10×10 all-foreground person mask. -/
def plainMask : Mask := ⟨10, 10, fun _ _ => 255⟩

/-- A single well-sized candidate of rank 0. -/
def bigFace : Face := ⟨0, 30, 30, 20, 20, 9/10⟩

/-- Counterexample for claim C1 as stated: with segmentation unavailable
(`remove_background` yields nothing) and one surviving candidate,
`process_photo` succeeds and the body artifacts are null — but the face
thumbnail is null as well, because it is composited from the
background-removed image. -/
theorem no_segmentation_thumbnail_counterexample :
    sizeFilter [bigFace] ≠ [] ∧
    (process_photo plainImg none [bigFace] none).success = true ∧
    (process_photo plainImg none [bigFace] none).body_no_bg = none ∧
    (process_photo plainImg none [bigFace] none).body_crop = none ∧
    (process_photo plainImg none [bigFace] none).face_thumbnail = none := by
  refine ⟨?_, rfl, rfl, rfl, rfl⟩
  norm_num [sizeFilter, List.filter_cons, List.filter_nil, bigFace]

/-- Claim C1 (amended): if background removal produces nothing (the
segmentation model is unavailable or raised), `analyze` still succeeds
for every input with at least one surviving candidate, with the body
artifacts null — and the terminal face thumbnail null as well, since it
is derived from the background-removed image. -/
theorem analyze_no_segmentation (img : Img) (detected : List Face)
    (selected : Option ℕ) (hne : sizeFilter detected ≠ []) :
    (process_photo img none detected selected).success = true ∧
    (process_photo img none detected selected).body_no_bg = none ∧
    (process_photo img none detected selected).body_crop = none ∧
    (process_photo img none detected selected).face_thumbnail = none := by
  simp only [process_photo]
  split_ifs with h0 h1
  all_goals
    first
      | exact absurd (List.length_eq_zero.mp h0) hne
      | exact ⟨rfl, by simp, by simp, by simp⟩

/-- Concrete evaluation of the degraded no-segmentation path. -/
theorem analyze_no_segmentation_witness :
    (process_photo plainImg none [bigFace] (some 0)).success = true ∧
    (process_photo plainImg none [bigFace] (some 0)).body_no_bg = none ∧
    (process_photo plainImg none [bigFace] (some 0)).body_crop = none ∧
    (process_photo plainImg none [bigFace] (some 0)).face_thumbnail = none :=
  analyze_no_segmentation plainImg [bigFace] (some 0)
    (by norm_num [sizeFilter, List.filter_cons, List.filter_nil, bigFace])

/-- A 2-percent-wide rank-0 candidate that the size filter drops. -/
def tinyFace : Face := ⟨0, 40, 40, 2, 2, 9/10⟩

/-- The surviving left-hand candidate, id 1. -/
def leftFace : Face := ⟨1, 10, 10, 20, 20, 8/10⟩

/-- The surviving right-hand candidate, id 2. -/
def rightFace : Face := ⟨2, 70, 10, 20, 20, 7/10⟩

/-- Counterexample for claim C10 as stated: after the size filter drops
the 2-percent rank-0 candidate, two candidates with ids 1 and 2 survive,
so `selected_face_id = 2` is at-or-past the candidate count yet still
names candidate id 2 — the occlusion step then erases candidate id 1's
region instead of leaving the image unchanged. -/
theorem select_overflow_counterexample :
    (sizeFilter [tinyFace, leftFace, rightFace]).length ≤ 2 ∧
    (process_photo plainImg (some (plainRgba, plainMask))
        [tinyFace, leftFace, rightFace] (some 2)).success = true ∧
    remove_faces_except plainRgba 2 (sizeFilter [tinyFace, leftFace, rightFace])
      ≠ plainRgba := by
  have hsf : sizeFilter [tinyFace, leftFace, rightFace] =
      [leftFace, rightFace] := by
    norm_num [sizeFilter, List.filter_cons, List.filter_nil, tinyFace,
      leftFace, rightFace]
  refine ⟨by rw [hsf]; norm_num, rfl, ?_⟩
  intro hcontra
  have e1 : ((remove_faces_except plainRgba 2
      (sizeFilter [tinyFace, leftFace, rightFace])).px 0 0).a = 0 := by
    rw [hsf]
    norm_num [remove_faces_except, rfe_step, eraseRegion, faceCenterXpx,
      int_trunc, List.find?, List.foldl, leftFace, rightFace, plainRgba,
      max_def, min_def, (show Int.fdiv 10 2 = 5 from by decide)]
  rw [hcontra] at e1
  norm_num [plainRgba] at e1

/-- Claim C10 (amended): when the supplied `selected_face_id` is
at-or-past the surviving candidate count and — as holds whenever the ids
are the contiguous range `0..N-1` — no surviving candidate carries that
id, `process_photo` succeeds, echoes the supplied id, uses the first
(highest-ranked) candidate for the face box, and the occlusion step
returns the image unchanged. -/
theorem select_overflow_graceful (img rgba : Img) (mask : Mask)
    (detected : List Face) (sid : ℕ)
    (hne : sizeFilter detected ≠ [])
    (hsid : (sizeFilter detected).length ≤ sid)
    (hid : ∀ f ∈ sizeFilter detected, f.id ≠ sid) :
    (process_photo img (some (rgba, mask)) detected (some sid)).success
      = true ∧
    (process_photo img (some (rgba, mask)) detected
      (some sid)).selected_face_id = some sid ∧
    (process_photo img (some (rgba, mask)) detected (some sid)).face_box
      = (sizeFilter detected).head? ∧
    remove_faces_except rgba sid (sizeFilter detected) = rgba := by
  have hocc : remove_faces_except rgba sid (sizeFilter detected) = rgba := by
    unfold remove_faces_except
    split_ifs with hlen
    · rfl
    · rw [List.find?_eq_none.mpr (fun f hf => by simpa using hid f hf)]
  have hface : faceAt (sizeFilter detected) (some sid) =
      (sizeFilter detected).head? := by
    show (if sid < (sizeFilter detected).length then (sizeFilter detected)[sid]?
      else (sizeFilter detected).head?) = (sizeFilter detected).head?
    rw [if_neg (not_lt.mpr hsid)]
  simp only [process_photo]
  split_ifs with h0 h1
  all_goals
    first
      | exact absurd (List.length_eq_zero.mp h0) hne
      | exact absurd h1.2 (by simp)
      | exact ⟨rfl, rfl, hface, hocc⟩

/-- Concrete evaluation of the graceful selected-id overflow: ids 1 and
2 survive, id 5 is selected, nothing is erased. -/
theorem select_overflow_graceful_witness :
    (process_photo plainImg (some (plainRgba, plainMask))
        [leftFace, rightFace] (some 5)).success = true ∧
    (process_photo plainImg (some (plainRgba, plainMask))
        [leftFace, rightFace] (some 5)).selected_face_id = some 5 ∧
    (process_photo plainImg (some (plainRgba, plainMask))
        [leftFace, rightFace] (some 5)).face_box
      = (sizeFilter [leftFace, rightFace]).head? ∧
    remove_faces_except plainRgba 5 (sizeFilter [leftFace, rightFace])
      = plainRgba :=
  select_overflow_graceful plainImg plainRgba plainMask [leftFace, rightFace] 5
    (by decide) (by decide) (by decide)
